import Mathlib

/-!
Verification of the word-cache database façade (`coq/clients/cache/database.py`).

The façade owns an in-memory word table behind a single-owner executor. `insert`
adds words inside a mutex-guarded transaction; `select` first issues an engine
interrupt, then runs a two-tier query (primary over word+sym, backup over word
alone) on the owner thread, translating rows to (word, optional sort key) pairs
and swallowing engine operational errors; a caller cancelled while awaiting gets
a forced interrupt before its cancellation is re-raised.

The literal SQL assets (`coq/clients/cache/sql/…`), `shared/sql.BIGGEST_INT` and
`shared/executor.SingleThreadExecutor` are not part of the sources at hand; the
definitions below that depend on them are modelled from the specification and say
so in their doc comments. Everything else is translated from `database.py`.
-/

/-- The `MatchOptions` fields consumed by `Database.select`
(`exact_matches`, `fuzzy_cutoff`, `look_ahead`, `max_results`). -/
structure MatchOptions where
  exact_matches : Nat
  fuzzy_cutoff : Nat
  look_ahead : Nat
  max_results : Nat
deriving DecidableEq

/-- Modelled from the spec: `BIGGEST_INT` comes from `shared/sql`, which is not among
the sources; the spec calls it "an effectively unbounded cap", here the largest
signed 64-bit value. -/
def BIGGEST_INT : Nat := 2 ^ 63 - 1

/-- The storage-engine state: the single table of words. The engine keeps the word
set duplicate-free (spec: "one table of unique words"). -/
structure DBState where
  words : List String
deriving DecidableEq

/-- Modelled from the spec: the exact-prefix admission test of the opaque SQL queries
(the façade passes `like_esc(word[: opts.exact_matches])`): a candidate is considered
only when it starts with the first `exact` characters of the query. The fuzzy
dissimilarity scoring inside the opaque SQL is not modelled: every admitted candidate
is kept, in engine (store) order. -/
def exactMatch (exact : Nat) (q cand : String) : Bool :=
  (q.data.take exact).isPrefixOf cand.data

/-- Modelled from the spec: the primary-tier query (`sql("select", "words")`, an
opaque SQL asset): scores candidates against both `word` and `sym`, returns at most
`limit` rows in the engine's own ranking order, and surfaces no sort key. -/
def primaryQuery (store : List String) (exact : Nat) (word sym : String) (limit : Nat) :
    List String :=
  ((store.filter fun cand => exactMatch exact word cand || exactMatch exact sym cand).take
    limit)

/-- Modelled from the spec: the backup-tier query (`sql("select", "backup_words")`, an
opaque SQL asset): scores against `word` alone and returns with every row the explicit
secondary sort key (`row["sort_by"]`) the caller must re-rank with. -/
def backupQuery (store : List String) (exact : Nat) (word : String) (limit : Nat) :
    List (String × String) :=
  (((store.filter fun cand => exactMatch exact word cand).map fun cand => (cand, cand)).take
    limit)

/-- Fault injection standing for the engine raising `OperationalError` at each of the
three statements `Database.select` can execute (e.g. because an interrupt arrived
mid-statement). -/
structure EngineFaults where
  failDelete : Bool
  failPrimary : Bool
  failBackup : Bool
deriving DecidableEq

/-- The fault-free engine. -/
def noFaults : EngineFaults := ⟨false, false, false⟩

/-- Outcome of the `cont` unit of work of `Database.select`: a normal return carrying
the rows translated to (word, optional sort key) pairs, or an uncaught
`OperationalError` propagating to the caller. Both carry the store left behind. -/
inductive SelectResult where
  | ok (st : DBState) (entries : List (String × Option String))
  | raised (st : DBState)
deriving DecidableEq

/-- The store after the unit ran (a failed transaction is rolled back). -/
def SelectResult.state : SelectResult → DBState
  | .ok st _ => st
  | .raised st => st

/-- The entries the caller can iterate (none when the unit raised). -/
def SelectResult.entries : SelectResult → List (String × Option String)
  | .ok _ es => es
  | .raised _ => []

/-- Whether the unit returned instead of raising. -/
def SelectResult.isOk : SelectResult → Bool
  | .ok _ _ => true
  | .raised _ => false

/-- The `cont` unit of work of `Database.select`: on `clear`, one delete-everything
transaction inside the mutex and no rows — the delete is not guarded by the
`try`/`except OperationalError`, so a failure there propagates; otherwise the
primary-tier query runs with `limit = BIGGEST_INT if limitless else opts.max_results`,
the backup tier runs only when the primary returned zero rows, and any
`OperationalError` is turned into the empty answer. `limitless` is the Python `int`
argument, used for its truthiness. -/
def selectCont (st : DBState) (clear : Bool) (opts : MatchOptions) (word sym : String)
    (limitless : Nat) (f : EngineFaults) : SelectResult :=
  if clear then
    if f.failDelete then .raised st
    else .ok ⟨[]⟩ []
  else
    if f.failPrimary then .ok st []
    else
      let limit := if limitless ≠ 0 then BIGGEST_INT else opts.max_results
      let rows := primaryQuery st.words opts.exact_matches word sym limit
      if rows.isEmpty then
        if f.failBackup then .ok st []
        else
          .ok st ((backupQuery st.words opts.exact_matches word limit).map
            fun p => (p.1, some p.2))
      else .ok st (rows.map fun w => (w, none))

/-- Modelled from the spec: the effect of one row of `sql("insert", "word")` (an
opaque SQL asset): the word set never contains duplicates and inserting an existing
word is a silent no-op that keeps the original entry. -/
def insertWord (store : List String) (w : String) : List String :=
  if w ∈ store then store else store ++ [w]

/-- The `cont` unit of work of `Database.insert`: `cursor.executemany` over the given
words, inside the mutex, in one transaction. -/
def insertCont (st : DBState) (ws : List String) : DBState :=
  ⟨ws.foldl insertWord st.words⟩

/-! ## Functional properties of `select` and `insert` -/

/-- C4: a select call with `clear = true` deletes every stored word and returns the
empty sequence, whatever the options, word, sym and limitless arguments are. -/
theorem select_clear_deletes_all (st : DBState) (opts : MatchOptions) (word sym : String)
    (limitless : Nat) :
    selectCont st true opts word sym limitless noFaults = .ok ⟨[]⟩ [] := rfl

/-- C8: a select call with `clear = false` leaves the stored word set unchanged, even
when the engine raises mid-query; only the clear branch mutates the store. -/
theorem select_no_clear_preserves_store (st : DBState) (opts : MatchOptions)
    (word sym : String) (limitless : Nat) (f : EngineFaults) :
    (selectCont st false opts word sym limitless f).state = st := by
  obtain ⟨d, p, b⟩ := f
  simp only [selectCont]
  cases p <;> cases b <;> simp only [Bool.false_eq_true, if_false, if_true, reduceIte] <;>
    (try split) <;> (try split) <;> rfl

/-- C2 counterexample: a select call with `clear = true` whose delete statement hits
an engine operational failure raises to the caller — the delete transaction is outside
the `try`/`except OperationalError` guard, so "a select call never raises an engine
error" fails at this concrete input. -/
theorem select_clear_raise_escapes :
    (selectCont ⟨["x"]⟩ true ⟨2, 0, 0, 10⟩ "" "" 0 ⟨true, false, false⟩).isOk = false :=
  rfl

/-- C2 (amended to the non-clear branch): a select call with `clear = false` never
raises, whatever statements fail: an operational failure of the primary query is
swallowed into the empty answer with the store kept, and an operational failure of
the backup query likewise yields the empty answer when the backup tier ran (zero
primary rows) and leaves the primary answer untouched otherwise. -/
theorem select_swallows_operational_error (st : DBState) (opts : MatchOptions)
    (word sym : String) (limitless : Nat) (f : EngineFaults) :
    (selectCont st false opts word sym limitless f).isOk = true
      ∧ (∀ d b : Bool,
          selectCont st false opts word sym limitless ⟨d, true, b⟩ = .ok st [])
      ∧ (∀ d : Bool,
          selectCont st false opts word sym limitless ⟨d, false, true⟩
            = .ok st
                (if (primaryQuery st.words opts.exact_matches word sym
                      (if limitless ≠ 0 then BIGGEST_INT else opts.max_results)).isEmpty
                 then []
                 else
                   (primaryQuery st.words opts.exact_matches word sym
                      (if limitless ≠ 0 then BIGGEST_INT else opts.max_results)).map
                     fun w => (w, none))) := by
  refine ⟨?_, ?_, ?_⟩
  · obtain ⟨d, p, b⟩ := f
    simp only [selectCont]
    cases p <;> cases b <;> simp only [Bool.false_eq_true, if_false, if_true, reduceIte] <;>
      (try split) <;> (try split) <;> rfl
  · intro d b
    simp [selectCont]
  · intro d
    by_cases hp : primaryQuery st.words opts.exact_matches word sym
        (if limitless = 0 then opts.max_results else BIGGEST_INT) = []
    · simp [selectCont, hp]
    · simp [selectCont, hp]

/-- C3: with `clear = false` and a healthy engine, the backup-tier query runs exactly
when the primary tier returned zero rows, and the sort key of every returned entry is
absent on the primary path and present on the backup path. -/
theorem select_two_tier (st : DBState) (opts : MatchOptions) (word sym : String)
    (limitless : Nat) :
    (selectCont st false opts word sym limitless noFaults
        = .ok st
            (if (primaryQuery st.words opts.exact_matches word sym
                  (if limitless ≠ 0 then BIGGEST_INT else opts.max_results)).isEmpty
             then
               (backupQuery st.words opts.exact_matches word
                  (if limitless ≠ 0 then BIGGEST_INT else opts.max_results)).map
                 fun p => (p.1, some p.2)
             else
               (primaryQuery st.words opts.exact_matches word sym
                  (if limitless ≠ 0 then BIGGEST_INT else opts.max_results)).map
                 fun w => (w, none)))
      ∧ ((selectCont st false opts word sym limitless noFaults).entries.all fun e =>
          e.2.isNone
            == !(primaryQuery st.words opts.exact_matches word sym
                  (if limitless ≠ 0 then BIGGEST_INT else opts.max_results)).isEmpty)
          = true := by
  by_cases hp : primaryQuery st.words opts.exact_matches word sym
      (if limitless = 0 then opts.max_results else BIGGEST_INT) = []
  · constructor
    · simp [selectCont, noFaults, hp]
    · simp [selectCont, noFaults, hp, SelectResult.entries, List.all_eq_true]
      rintro a b x y - rfl rfl
      rfl
  · constructor
    · simp [selectCont, noFaults, hp]
    · simp [selectCont, noFaults, hp, SelectResult.entries, List.all_eq_true]

/-- C6: with `limitless` unset every select call returns at most `max_results`
entries; with `limitless` set the cap used is `BIGGEST_INT` instead, so a store
holding more matches than `max_results` yields more than `max_results` entries. -/
theorem select_bounded_results (st : DBState) (clear : Bool) (opts : MatchOptions)
    (word sym : String) (f : EngineFaults) :
    (selectCont st clear opts word sym 0 f).entries.length ≤ opts.max_results
      ∧ ∃ (st' : DBState) (opts' : MatchOptions) (word' sym' : String) (lim' : Nat),
          lim' ≠ 0
            ∧ opts'.max_results
                < (selectCont st' false opts' word' sym' lim' noFaults).entries.length := by
  constructor
  · obtain ⟨d, p, b⟩ := f
    cases clear <;> cases d <;> cases p <;> cases b <;>
      simp only [selectCont, Bool.false_eq_true, if_false, if_true, reduceIte] <;>
      (try split) <;> (try split) <;>
      simp [SelectResult.entries, primaryQuery, backupQuery] <;>
      omega
  · exact ⟨⟨["aa", "ab"]⟩, ⟨1, 0, 0, 1⟩, "a", "a", 1, by decide, by decide⟩

/-- Whatever tier answered a non-clear select, the words of its entries form a
sublist of the store. -/
lemma select_entries_words_sublist (st : DBState) (opts : MatchOptions)
    (word sym : String) (limitless : Nat) (f : EngineFaults) :
    ((selectCont st false opts word sym limitless f).entries.map Prod.fst).Sublist
      st.words := by
  obtain ⟨d, p, b⟩ := f
  have hsub : ∀ (limit : Nat) (pred : String → Bool),
      (List.take limit (st.words.filter pred)).Sublist st.words := fun limit pred =>
    (List.take_sublist _ _).trans (List.filter_sublist _)
  cases p <;> cases b <;>
    simp only [selectCont, Bool.false_eq_true, if_false, if_true, reduceIte] <;>
    (try split) <;> (try split) <;>
    simp [SelectResult.entries, primaryQuery, backupQuery, List.map_map,
      Function.comp_def, List.map_id'] <;>
    first
      | exact List.nil_sublist _
      | exact hsub _ _

/-- `insertWord` keeps the word set duplicate-free. -/
lemma insertWord_nodup {s : List String} (w : String) (hs : s.Nodup) :
    (insertWord s w).Nodup := by
  unfold insertWord
  split
  · exact hs
  · next h => exact hs.append (List.nodup_singleton w) (List.disjoint_singleton.mpr h)

/-- After `insertWord`, the inserted word is present. -/
lemma mem_insertWord (s : List String) (w : String) : w ∈ insertWord s w := by
  unfold insertWord
  split
  · assumption
  · simp

/-- Inserting a word that is already present is a no-op. -/
lemma insertWord_mem {s : List String} {w : String} (h : w ∈ s) : insertWord s w = s := by
  unfold insertWord
  exact if_pos h

/-- On a duplicate-free store, `insertWord` leaves exactly one occurrence. -/
lemma insertWord_count {s : List String} (w : String) (hs : s.Nodup) :
    (insertWord s w).count w = 1 := by
  unfold insertWord
  split
  · next h => exact List.count_eq_one_of_mem hs h
  · next h => simp [List.count_eq_zero.mpr h]

/-- C5: insert is idempotent on the stored word set: inserting w twice equals
inserting it once, exactly one occurrence of w remains, inserting into a store
already holding w is a silent no-op, the word set stays duplicate-free, and any
subsequent select returns w at most once. -/
theorem insert_idempotent (s : List String) (w : String) (hs : s.Nodup) :
    insertCont (insertCont ⟨s⟩ [w]) [w] = insertCont ⟨s⟩ [w]
      ∧ (insertCont ⟨s⟩ [w]).words.count w = 1
      ∧ insertCont ⟨w :: s⟩ [w] = ⟨w :: s⟩
      ∧ (insertCont ⟨s⟩ [w]).words.Nodup
      ∧ ∀ (opts : MatchOptions) (word sym : String) (limitless : Nat) (f : EngineFaults),
          ((selectCont (insertCont (insertCont ⟨s⟩ [w]) [w]) false opts word sym
                limitless f).entries.map Prod.fst).count w ≤ 1 := by
  have hone : insertCont ⟨s⟩ [w] = ⟨insertWord s w⟩ := rfl
  have hidem : insertCont (insertCont ⟨s⟩ [w]) [w] = insertCont ⟨s⟩ [w] := by
    simp only [hone, insertCont, List.foldl]
    exact congrArg DBState.mk (insertWord_mem (mem_insertWord s w))
  refine ⟨hidem, ?_, ?_, ?_, ?_⟩
  · exact insertWord_count w hs
  · simp only [insertCont, List.foldl]
    exact congrArg DBState.mk (insertWord_mem (List.mem_cons_self w s))
  · exact insertWord_nodup w hs
  · intro opts word sym limitless f
    have hnd : (insertCont (insertCont ⟨s⟩ [w]) [w]).words.Nodup := by
      rw [hidem]
      exact insertWord_nodup w hs
    calc ((selectCont (insertCont (insertCont ⟨s⟩ [w]) [w]) false opts word sym
              limitless f).entries.map Prod.fst).count w
        ≤ (insertCont (insertCont ⟨s⟩ [w]) [w]).words.count w :=
          (select_entries_words_sublist _ _ _ _ _ _).count_le w
      _ ≤ 1 := List.nodup_iff_count_le_one.mp hnd w

/-- C5 witness: the idempotence theorem instantiated at the store ["b"] and the
word "a". -/
theorem insert_idempotent_witness :
    insertCont (insertCont ⟨["b"]⟩ ["a"]) ["a"] = insertCont ⟨["b"]⟩ ["a"]
      ∧ (insertCont ⟨["b"]⟩ ["a"]).words.count "a" = 1
      ∧ (insertCont ⟨["b"]⟩ ["a"]).words.Nodup :=
  ⟨(insert_idempotent ["b"] "a" (by decide)).1,
    (insert_idempotent ["b"] "a" (by decide)).2.1,
    (insert_idempotent ["b"] "a" (by decide)).2.2.2.1⟩

/-! ## Scheduling and interrupt coordination -/

/-- How a piece of work reaches the storage connection: submitted through the
single-owner executor's FIFO queue (`self._ex.submit`, running on the dedicated
owner thread), or performed outside that queue on a generic pool thread
(`run_in_executor`). The single-owner executor itself (`shared/executor.py`) is not
among the sources; its routing contract is modelled from the spec: a submitted unit
runs on the dedicated owner thread, in submission order. -/
inductive Route where
  | ownerQueue
  | offload
deriving DecidableEq

/-- The statements the façade executes on the connection. -/
inductive Stmt where
  | insertRow
  | deleteWords
  | selectWords
  | backupWords
deriving DecidableEq

/-- What a connection-touching action does. -/
inductive TouchKind where
  | connInit
  | interrupt
  | stmt (s : Stmt)
deriving DecidableEq

/-- One touch of the connection: what it does, how it was routed, and whether the
shared mutex is held while it runs. -/
structure ConnTouch where
  kind : TouchKind
  route : Route
  underMutex : Bool
deriving DecidableEq

/-- `Database._interrupt`: takes the shared mutex and calls `conn.interrupt()`. In
`select` it is invoked directly by the offloaded `step` closure and, on
cancellation, by `run_in_executor(self._interrupt)` — never through the
single-owner queue. -/
def interruptTouch : ConnTouch := ⟨.interrupt, .offload, true⟩

/-- `Database.__init__`: `self._ex.submit(_init)` builds the connection on the owner
thread, with no mutex held. -/
def initTouches : List ConnTouch := [⟨.connInit, .ownerQueue, false⟩]

/-- `Database.insert`: the whole insert transaction runs as one unit on the
single-owner executor and holds the mutex for its entire duration. -/
def insertTouches : List ConnTouch := [⟨.stmt .insertRow, .ownerQueue, true⟩]

/-- The `cont` unit of `Database.select`, as submitted to the single-owner executor:
on `clear`, one delete transaction under the mutex; otherwise the primary query
and — only when it returned zero rows (`primaryEmpty`) — the backup query, with the
mutex never taken. -/
def selectUnitTouches (clear primaryEmpty : Bool) : List ConnTouch :=
  if clear then [⟨.stmt .deleteWords, .ownerQueue, true⟩]
  else
    ⟨.stmt .selectWords, .ownerQueue, false⟩ ::
      (if primaryEmpty then [⟨.stmt .backupWords, .ownerQueue, false⟩] else [])

/-- Observable events of one `select` call, in program order. -/
inductive SelEvent where
  | touch (t : ConnTouch)
  | enqueueSelectUnit
  | reraiseCancellation
deriving DecidableEq

/-- Does the event run one of the unit's query/delete statements? -/
def SelEvent.isStmt : SelEvent → Bool
  | .touch ⟨.stmt _, _, _⟩ => true
  | _ => false

/-- The events of one `select` call: the offloaded `step` first calls
`self._interrupt()` and then enqueues the `cont` unit on the single-owner executor;
if the awaiting caller is cancelled, the `except CancelledError` handler awaits a
fresh `_interrupt` and re-raises the cancellation; otherwise the enqueued unit's
touches run. -/
def selectEvents (clear primaryEmpty cancelled : Bool) : List SelEvent :=
  SelEvent.touch interruptTouch ::
    SelEvent.enqueueSelectUnit ::
      (if cancelled then [SelEvent.touch interruptTouch, SelEvent.reraiseCancellation]
       else (selectUnitTouches clear primaryEmpty).map SelEvent.touch)

/-- Every touch of the connection the façade performs across its operations. -/
def allConnTouches (clear primaryEmpty cancelled : Bool) : List ConnTouch :=
  initTouches ++ insertTouches
    ++ (interruptTouch :: selectUnitTouches clear primaryEmpty)
    ++ (if cancelled then [interruptTouch] else [])

/-- C7: in every select call the interrupt — performed holding the shared mutex — is
issued first, the select unit is enqueued on the single-owner executor second, and
every statement of that unit runs only after the enqueue, routed through the owner
queue. -/
theorem select_interrupt_before_query (clear primaryEmpty : Bool) :
    (selectEvents clear primaryEmpty false)[0]? = some (.touch interruptTouch)
      ∧ interruptTouch.underMutex = true
      ∧ (selectEvents clear primaryEmpty false)[1]? = some .enqueueSelectUnit
      ∧ ((selectEvents clear primaryEmpty false).take 2).all
          (fun e => ! e.isStmt) = true
      ∧ (selectEvents clear primaryEmpty false).drop 2
          = (selectUnitTouches clear primaryEmpty).map SelEvent.touch
      ∧ (selectUnitTouches clear primaryEmpty).all
          (fun t => t.route == Route.ownerQueue) = true := by
  cases clear <;> cases primaryEmpty <;> decide

/-- C1: when the awaiting caller is cancelled, the handler issues a fresh interrupt
call — after the select unit was already enqueued — that takes the shared mutex
directly, outside the single-owner queue, and the original cancellation is re-raised
only after that forced interrupt completed: the re-raise is the final event and
appears nowhere earlier. -/
theorem select_cancel_forced_interrupt_then_reraise (clear primaryEmpty : Bool) :
    (selectEvents clear primaryEmpty true)[2]? = some (.touch interruptTouch)
      ∧ interruptTouch.route = Route.offload
      ∧ interruptTouch.underMutex = true
      ∧ (selectEvents clear primaryEmpty true)[3]? = some .reraiseCancellation
      ∧ (selectEvents clear primaryEmpty true).length = 4
      ∧ ((selectEvents clear primaryEmpty true).take 3).all
          (fun e => e != SelEvent.reraiseCancellation) = true := by
  cases clear <;> cases primaryEmpty <;> decide

/-- C9 counterexample: not every connection touch runs through the single-owner
executor: the interrupt issued by `select`'s `step` closure is routed outside the
owner queue, already in the plain uncancelled trace. -/
theorem conn_touch_off_owner_queue :
    (allConnTouches false false false).all (fun t => t.route == Route.ownerQueue)
      = false := by decide

/-- C9 (amended): every statement and the connection initialisation run through the
single-owner executor on the dedicated worker thread; the interrupt calls are the
exception — they run outside the owner queue, serialized only by the shared
mutex. -/
theorem conn_touches_owner_except_interrupt (clear primaryEmpty cancelled : Bool) :
    (allConnTouches clear primaryEmpty cancelled).all
      (fun t =>
        match t.kind with
        | .interrupt => t.route == Route.offload && t.underMutex
        | _ => t.route == Route.ownerQueue) = true := by
  cases clear <;> cases primaryEmpty <;> cases cancelled <;> decide

/-- C10: the shared mutex is held for the entire insert transaction and the
clear-branch delete transaction, every interrupt call takes it, and the unit
executing a non-clear select holds it at no point — so a running non-clear select
unit never blocks an interrupt's mutex acquisition. -/
theorem mutex_discipline (primaryEmpty : Bool) :
    insertTouches.all (fun t => t.underMutex) = true
      ∧ (selectUnitTouches true primaryEmpty).all (fun t => t.underMutex) = true
      ∧ interruptTouch.underMutex = true
      ∧ (selectUnitTouches false primaryEmpty).all
          (fun t => t.underMutex == false) = true := by
  cases primaryEmpty <;> decide
